import Mathlib

/-!
Verification of the moviesearch hybrid query engine (`src/agent/agent.py`).

Shallow embedding conventions:
* Python strings are modelled as `List Char`; only the ASCII behaviour of
  `str.lower`, `str.strip` and the regex classes `\s` / `\d` is modelled,
  which covers every string the claims exercise.
* An item record (a JSON metadata dict with string values) is an insertion
  ordered association list `Record`.  `json.dumps` is modelled by
  `serialize`, which renders the fields in insertion order, exactly as
  Python's `json.dumps` does (no `sort_keys`).
* Python `set` objects of serialized records are modelled as lists that are
  de-duplicated by serialization (`dedupBySer`); `set.intersection(*sets)`
  is modelled by `interAll`, which keeps the first set's elements whose
  serialization occurs in every other set.  The iteration order of a Python
  set is unspecified; the model fixes the first-list order, and every
  theorem below depends only on membership / cardinality, not on order.
* External services (the sentence-transformer + Chroma vector query, the
  OpenAI re-ranker, `json.loads`) are taken as opaque function parameters.
-/

namespace MovieSearch

/-- ASCII whitespace as matched by Python's `str.strip` and the regex
class `\s` (the non-ASCII whitespace code points are not exercised by any
claim). -/
def pyIsSpace (c : Char) : Bool :=
  c = ' ' || c = '\t' || c = '\n' || c = '\r' || c = '\x0b' || c = '\x0c'

/-- ASCII decimal digit, the regex class `\d`. -/
def isDig (c : Char) : Bool :=
  decide ('0' ≤ c) && decide (c ≤ '9')

/-- Python `str.lower` on a single ASCII character. -/
def pyLower (c : Char) : Char :=
  if 'A' ≤ c ∧ c ≤ 'Z' then Char.ofNat (c.toNat + 32) else c

/-- Python `str.lower`. -/
def pyLowerL (s : List Char) : List Char := s.map pyLower

/-- Drop leading whitespace (the left half of Python `str.strip`). -/
def lstrip (s : List Char) : List Char := s.dropWhile pyIsSpace

/-- Drop trailing whitespace (the right half of Python `str.strip`). -/
def rstrip (s : List Char) : List Char :=
  (s.reverse.dropWhile pyIsSpace).reverse

/-- Python `str.strip`. -/
def pyStrip (s : List Char) : List Char := rstrip (lstrip s)

/-- `litAt p s` holds when the literal `p` occurs at the very start of
`s`; the building block for the regex literal alternatives. -/
def litAt : List Char → List Char → Bool
  | [], _ => true
  | _ :: _, [] => false
  | p :: ps, c :: cs => p = c && litAt ps cs

/-- Python `str.endswith`. -/
def endsWithL (suf s : List Char) : Bool := litAt suf.reverse s.reverse

/-- Python's substring containment test `a in b`. -/
def isSubstr (a b : List Char) : Bool :=
  match b with
  | [] => a.isEmpty
  | _ :: t => litAt a b || isSubstr a t

/-- The clause separator `" and "` of `MovieSearchAgent.search`. -/
def andSep : List Char := (r" and ").toList

/-- Python `query.split(" and ")`: non-overlapping left-to-right splitting
on the literal separator, with the five separator characters matched
positionally so the recursion is structural. -/
def splitAndAux : List Char → List Char → List (List Char)
  | ' ' :: 'a' :: 'n' :: 'd' :: ' ' :: rest, acc => acc.reverse :: splitAndAux rest []
  | c :: rest, acc => splitAndAux rest (c :: acc)
  | [], acc => [acc.reverse]

def splitAnd (s : List Char) : List (List Char) := splitAndAux s []

/-- Value of an ASCII digit string. -/
def digitsToNat (ds : List Char) : Nat :=
  ds.foldl (fun acc c => acc * 10 + (c.toNat - 48)) 0

/-- Python `int(s)` on a string: optional surrounding whitespace, optional
sign, at least one ASCII digit; anything else raises `ValueError`,
modelled as `none`.  (Underscore digit grouping and non-ASCII digits are
not exercised by any claim.) -/
def pyInt? (s : List Char) : Option Int :=
  let t := pyStrip s
  match t with
  | '-' :: ds =>
    if ds ≠ [] ∧ ds.all isDig then some (-(digitsToNat ds : Int)) else none
  | '+' :: ds =>
    if ds ≠ [] ∧ ds.all isDig then some (digitsToNat ds : Int) else none
  | ds =>
    if ds ≠ [] ∧ ds.all isDig then some (digitsToNat ds : Int) else none

/-! ## Records, serialization and set operations -/

/-- An item record: a JSON metadata dict with string values, as an
insertion-ordered association list. -/
abbrev Record := List (List Char × List Char)

/-- The JSON string escaping of `json.dumps` restricted to the characters
`\` and `"` (control characters and non-ASCII escapes are not exercised
by any claim). -/
def jstrEsc (s : List Char) : List Char :=
  s.flatMap fun c => if c = '"' ∨ c = '\\' then ['\\', c] else [c]

/-- Render a JSON string literal. -/
def jstrLit (s : List Char) : List Char := '"' :: (jstrEsc s ++ ['"'])

/-- `json.dumps(m)` on a string-valued dict: fields rendered in insertion
order with the default `", "` / `": "` separators — Python's `json.dumps`
without `sort_keys`, hence order-dependent. -/
def serialize (r : Record) : List Char :=
  '\x7b' :: (List.intercalate ((r", ").toList)
      (r.map fun kv => jstrLit kv.1 ++ (r": ").toList ++ jstrLit kv.2)
    ++ ['\x7d'])

/-- Accumulator form of serialization-keyed de-duplication. -/
def dedupGo (seen : List (List Char)) : List Record → List Record
  | [] => []
  | r :: rest =>
    if seen.contains (serialize r) then dedupGo seen rest
    else r :: dedupGo (serialize r :: seen) rest

/-- A Python `set(json.dumps(m) for m in l)`, modelled as the sub-list of
`l` keeping the first record of each distinct serialization. -/
def dedupBySer (l : List Record) : List Record := dedupGo [] l

/-- `set.intersection(*sets)`: the members of the first set whose
serialization occurs in every other set. -/
def interAll : List (List Record) → List Record
  | [] => []
  | s :: rest =>
    s.filter fun m => rest.all fun t => t.any fun n => serialize n == serialize m

/-- Python dict `.get(key, [])` on an association-list index. -/
def indexGet (idx : List (List Char × List Record)) (k : List Char) : List Record :=
  ((idx.find? fun p => p.1 == k).map Prod.snd).getD []

/-- The five inverted indexes loaded by `MovieSearchAgent.__init__`. -/
structure Indexes where
  actor : List (List Char × List Record)
  director : List (List Char × List Record)
  company : List (List Char × List Record)
  genre : List (List Char × List Record)
  year : List (List Char × List Record)

/-! ## The structured-clause regular expressions

Each of the five patterns has the shape `(lit₁|lit₂|…)\s+(tail)` where
`tail` is either `(.+)` (greedy, `.` excludes newline) or `(\d{4})`.
`re.search` semantics: starting positions are tried left to right; at a
position the alternatives are tried in order; `\s+` is greedy and backs
off one character at a time when the tail fails. -/

/-- Try the tail `(.+)` after `j` (counting down from the full leading
whitespace run) characters of `\s+`: greedy `\s+` with backtracking,
then a greedy `.+` capture stopping at a newline. -/
def grabDotAux (rest : List Char) : Nat → Option (List Char)
  | 0 => none
  | j + 1 =>
    match List.drop (j + 1) rest with
    | [] => grabDotAux rest j
    | c :: t =>
      if c = '\n' then grabDotAux rest j
      else some ((c :: t).takeWhile fun d => ¬ d = '\n')

/-- Match `\s+(.+)` at the start of `rest`, returning the capture. -/
def grabDot (_alt rest : List Char) : Option (List Char) :=
  grabDotAux rest (rest.takeWhile pyIsSpace).length

/-- Try the tail `(\d{4})` after `j` characters of `\s+`. -/
def grabYearAux (rest : List Char) : Nat → Option (List Char)
  | 0 => none
  | j + 1 =>
    let tail := List.drop (j + 1) rest
    let ds := List.take 4 tail
    if ds.length = 4 ∧ ds.all isDig then some ds else grabYearAux rest j

/-- Match `\s+(\d{4})` at the start of `rest`, returning the matched
alternative (the relation) together with the four digits. -/
def grabYear (alt rest : List Char) : Option (List Char × List Char) :=
  (grabYearAux rest (rest.takeWhile pyIsSpace).length).map fun ds => (alt, ds)

/-- Try each alternative literal, in order, at the current position; on a
literal hit run the tail matcher on the remainder (regex alternation with
backtracking into the next alternative on tail failure). -/
def stepAlts {α : Type} (alts : List (List Char))
    (grab : List Char → List Char → Option α) (s : List Char) : Option α :=
  alts.findSome? fun a => if litAt a s then grab a (s.drop a.length) else none

/-- `re.search`: try the step at every starting position, left to right. -/
def scanFor {α : Type} (step : List Char → Option α) : List Char → Option α
  | [] => none
  | c :: rest => (step (c :: rest)).orElse fun _ => scanFor step rest

def reSearch {α : Type} (alts : List (List Char))
    (grab : List Char → List Char → Option α) (s : List Char) : Option α :=
  scanFor (stepAlts alts grab) s

def actorAlts : List (List Char) :=
  [(r"acted by").toList, (r"starring").toList, (r"featuring").toList]

def directorAlts : List (List Char) :=
  [(r"directed by").toList, (r"by director").toList]

def companyAlts : List (List Char) :=
  [(r"produced by").toList, (r"production").toList, (r"distributed by").toList]

def genreAlts : List (List Char) :=
  [(r"genre is").toList, (r"genre in").toList, (r"type is").toList]

def yearAlts : List (List Char) :=
  [(r"after").toList, (r"before").toList, (r"in").toList]

def afterLit : List Char := (r"after").toList
def beforeLit : List Char := (r"before").toList
def inLit : List Char := (r"in").toList

/-- `MovieSearchAgent._is_clause_structured`: the clause is structured
when any of the five patterns matches anywhere inside the normalized
clause text. -/
def is_clause_structured (clause : List Char) : Bool :=
  let c := pyStrip (pyLowerL clause)
  (reSearch actorAlts grabDot c).isSome
    || (reSearch directorAlts grabDot c).isSome
    || (reSearch companyAlts grabDot c).isSome
    || (reSearch genreAlts grabDot c).isSome
    || (reSearch yearAlts grabYear c).isSome

/-- The loop body of the year branch of `_filter_clause`: keep the records
of every index entry whose key parses as an integer satisfying the
relation; unparsable keys are skipped (`except ValueError: continue`). -/
def yearFilter (yearIdx : List (List Char × List Record))
    (relation : List Char) (year : Int) : List Record :=
  (yearIdx.filter fun p =>
    match pyInt? p.1 with
    | none => false
    | some n =>
      (relation == afterLit && decide (year < n))
        || (relation == beforeLit && decide (n < year))
        || (relation == inLit && decide (n = year))).flatMap Prod.snd

/-- `MovieSearchAgent._filter_clause`: try the five patterns in order and
resolve the first match against its index. -/
def filter_clause (idx : Indexes) (clause : List Char) : List Record :=
  let c := pyStrip (pyLowerL clause)
  match reSearch actorAlts grabDot c with
  | some g => indexGet idx.actor (pyStrip g)
  | none =>
  match reSearch directorAlts grabDot c with
  | some g => indexGet idx.director (pyStrip g)
  | none =>
  match reSearch companyAlts grabDot c with
  | some g => indexGet idx.company (pyStrip g)
  | none =>
  match reSearch genreAlts grabDot c with
  | some g => indexGet idx.genre (pyStrip g)
  | none =>
  match reSearch yearAlts grabYear c with
  | some rel_ds => yearFilter idx.year rel_ds.1 (digitsToNat rel_ds.2 : Int)
  | none => []

/-! ## `MovieSearchAgent.search` and `MovieOrchestrator.run` -/

/-- Clause extraction:
`[c.strip() for c in query.lower().split(" and ") if c.strip()]`. -/
def clausesOf (query : List Char) : List (List Char) :=
  ((splitAnd (pyLowerL query)).map pyStrip).filter fun c => !c.isEmpty

/-- The clause-processing loop of `search`: classify each clause, resolve
it, and build the semantic / structured lists of result sets; the whole
query yields no sets (`none`, i.e. the early `return []`) as soon as a
structured clause has no index matches or a semantic clause has no vector
hits.  The semantic oracle `sem` stands for
`collection.query(embedding(clause), 5)`. -/
def collect (idx : Indexes) (sem : List Char → List Record) :
    List (List Char) → Option (List (List Record) × List (List Record))
  | [] => some ([], [])
  | c :: rest =>
    if is_clause_structured c then
      let hits := filter_clause idx c
      if hits.isEmpty then none
      else (collect idx sem rest).map fun st => (st.1, dedupBySer hits :: st.2)
    else
      let metas := sem c
      if metas.isEmpty then none
      else (collect idx sem rest).map fun st => (dedupBySer metas :: st.1, st.2)

/-- `MovieSearchAgent.search`.  `n_results` caps only the printed preview
in the source, not the returned list; it is kept as a parameter to mirror
the signature. -/
def search (idx : Indexes) (sem : List Char → List Record)
    (query : List Char) (n_results : Nat) : List Record :=
  let clauses := clausesOf query
  if clauses.isEmpty then []
  else
    match collect idx sem clauses with
    | none => []
    | some st =>
      if st.1.isEmpty then
        let final := interAll st.2
        if final.isEmpty then [] else final
      else
        let final := interAll st.1
        if final.isEmpty then [] else final

/-- `candidates = self.search_agent.search(query, n_results)[:5]` in
`MovieOrchestrator.run` — the cap is the literal `5`, not `n_results`. -/
def runCandidates (idx : Indexes) (sem : List Char → List Record)
    (query : List Char) (n_results : Nat) : List Record :=
  (search idx sem query n_results).take 5

/-- `MovieOrchestrator.run`: an empty candidate list short-circuits to an
empty result (`none` models the Python `return []`); otherwise the
external recommender is invoked on the candidates. -/
def run {α : Type} (idx : Indexes) (sem : List Char → List Record)
    (recommender : List Char → List Record → α)
    (query : List Char) (n_results : Nat) : Option α :=
  let candidates := runCandidates idx sem query n_results
  if candidates.isEmpty then none
  else some (recommender query candidates)

/-! ## `parse_json_recommendations` (reconciliation, `agent.py` 413-471) -/

/-- Parsed JSON values, the codomain of `json.loads`.  Numbers are
modelled as integers; no claim exercises floating point payloads. -/
inductive JVal where
  | jnull : JVal
  | jbool : Bool → JVal
  | jnum : Int → JVal
  | jstr : List Char → JVal
  | jarr : List JVal → JVal
  | jobj : List (List Char × JVal) → JVal

/-- Python `str()` of a parsed JSON value.  Only the string case is
exercised by the claims; the `repr`-style rendering of containers is
abbreviated. -/
def pyStrOf : JVal → List Char
  | .jstr s => s
  | .jnull => (r"None").toList
  | .jbool true => (r"True").toList
  | .jbool false => (r"False").toList
  | .jnum n => (toString n).toList
  | .jarr _ => []
  | .jobj _ => []

/-- Python dict `.get(k, "")` on a parsed recommendation object. -/
def recGet (rec : List (List Char × JVal)) (k : List Char) : JVal :=
  ((rec.find? fun p => p.1 == k).map Prod.snd).getD (.jstr [])

/-- Python dict `.get(k, "")` on a candidate metadata record. -/
def metaGet (m : Record) (k : List Char) : List Char :=
  ((m.find? fun p => p.1 == k).map Prod.snd).getD []

def titleK : List Char := (r"title").toList
def reasonK : List Char := (r"reason").toList
def recommendationsK : List Char := (r"recommendations").toList

/-- An enriched recommendation row. -/
structure Enriched where
  title : List Char
  reason : List Char
  release_date : List Char
  director : List Char
  actors : List Char
  rating : List Char
  genres : List Char
  overview : List Char
  runtime : List Char
  popularity : List Char
  production_companies : List Char
deriving DecidableEq

/-- The matching condition of the reconciler:
`str(m.get("title", "")).strip().lower() in title.lower()` where `title`
is the already-stripped candidate title. -/
def titleMatches (title : List Char) (m : Record) : Bool :=
  isSubstr (pyLowerL (pyStrip (metaGet m titleK))) (pyLowerL title)

/-- The loop body of `parse_json_recommendations`: one enriched row per
recommendation dict, metadata copied from the first matching candidate
record (`next(...)` over `metadatas_global`), blank when none matches. -/
def enrichOne (metas : List Record) (rec : List (List Char × JVal)) : Enriched :=
  let title := pyStrip (pyStrOf (recGet rec titleK))
  let reason := pyStrip (pyStrOf (recGet rec reasonK))
  let m? := metas.find? (titleMatches title)
  let g := fun k => match m? with
    | some m => metaGet m k
    | none => []
  ⟨title, reason, g ((r"release_date").toList), g ((r"director").toList),
   g ((r"actors").toList), g ((r"rating").toList), g ((r"genres").toList),
   g ((r"overview").toList), g ((r"runtime").toList),
   g ((r"popularity").toList), g ((r"production_companies").toList)⟩

/-- The opening fence `"```json"` stripped by the parser. -/
def fenceOpen : List Char := (r"```json").toList

/-- The closing fence `"```"`. -/
def fenceClose : List Char := (r"```").toList

/-- The fence-stripping preamble of `parse_json_recommendations`
(lines 416-420): strip, drop a leading `"```json"` and re-strip, drop a
trailing `"```"` and re-strip. -/
def pyClean (s : List Char) : List Char :=
  let cleaned := pyStrip s
  let cleaned :=
    if litAt fenceOpen cleaned then pyStrip (cleaned.drop 7) else cleaned
  if endsWithL fenceClose cleaned then
    pyStrip (cleaned.take (cleaned.length - 3))
  else cleaned

/-- Shape dispatch (lines 427-433): a bare JSON array is the
recommendation list itself; an object contributes its
`"recommendations"` field (defaulting to the empty list); a
non-array/non-object payload raises, caught by the wrapping handler
(`none`).  An object whose `"recommendations"` field is not an array is
outside the modelled domain and no claim exercises it. -/
def extractRecs : JVal → Option (List JVal)
  | .jarr l => some l
  | .jobj fs =>
    match (fs.find? fun p => p.1 == recommendationsK).map Prod.snd with
    | some (.jarr l) => some l
    | some _ => none
    | none => some []
  | _ => none

/-- A recommendation entry is processed only when it is a dict
(`if not isinstance(rec, dict): continue`). -/
def asDict : JVal → Option (List (List Char × JVal))
  | .jobj fs => some fs
  | _ => none

/-- `parse_json_recommendations(response_text)` for a string payload.
`loads` stands for `json.loads` (`none` = `JSONDecodeError`), and
`metas` for the module-global `metadatas_global` holding the most recent
candidate records.  Any raised error is caught and yields `[]`. -/
def parse_json_recommendations (loads : List Char → Option JVal)
    (metas : List Record) (response_text : List Char) : List Enriched :=
  match loads (pyClean response_text) with
  | none => []
  | some parsed =>
    match extractRecs parsed with
    | none => []
    | some recs => (recs.filterMap asDict).map (enrichOne metas)

/-! ## `MovieOfferAgent._extract_prices_and_format` (prices part) -/

/-- `re.findall(r"\$\d+(\.\d{1,2})?", snippet)`.  Because the pattern
contains exactly one capturing group, Python returns the list of *group*
matches: the decimal-fraction part (for example `".99"`), or the empty
string when the optional group did not participate — not the full dollar
amount.  Matches are found left to right, non-overlapping, scanning
resumes at each match end. -/
def findallDollarF : Nat → List Char → List (List Char)
  | 0, _ => []
  | _ + 1, [] => []
  | fuel + 1, '$' :: rest =>
    let ds := rest.takeWhile isDig
    if ds.isEmpty then findallDollarF fuel rest
    else
      match rest.drop ds.length with
      | '.' :: r2 =>
        let dr := (r2.takeWhile isDig).take 2
        if dr.isEmpty then [] :: findallDollarF fuel ('.' :: r2)
        else ('.' :: dr) :: findallDollarF fuel (r2.drop dr.length)
      | after => [] :: findallDollarF fuel after
  | fuel + 1, _ :: rest => findallDollarF fuel rest

/-- Entry point: every step of the scan consumes at least one character,
so `s.length` units of fuel always suffice and the fueled recursion
computes exactly the Python scan. -/
def findallDollar (s : List Char) : List (List Char) := findallDollarF s.length s

/-- One starting position of
`re.search(r"(\$\d+(\.\d{1,2})?)\s*label", snippet, re.IGNORECASE)`:
`\$` then a greedy digit run, then the optional decimal group tried with
two digits, one digit, and absent (in that backtracking order), then
`\s*` and the lowercase label compared case-insensitively.  (`\d+` and
`\s*` backtracking below their greedy length can never succeed here
because a digit or space never begins the label, so the greedy run is
taken.) -/
def tryAmount (label : List Char) (s : List Char) : Option (List Char) :=
  match s with
  | '$' :: rest =>
    let ds := rest.takeWhile isDig
    if ds.isEmpty then none
    else
      let after := rest.drop ds.length
      let base := '$' :: ds
      let cont := fun (tail : List Char) (amt : List Char) =>
        if litAt label (pyLowerL (tail.dropWhile pyIsSpace)) then some amt
        else none
      match after with
      | '.' :: r2 =>
        let dr := r2.takeWhile isDig
        (if 2 ≤ dr.length then
            cont (r2.drop 2) (base ++ '.' :: dr.take 2) else none).orElse
        fun _ => (if 1 ≤ dr.length then
            cont (r2.drop 1) (base ++ '.' :: dr.take 1) else none).orElse
        fun _ => cont after base
      | _ => cont after base
  | _ => none

/-- `re.search` for the labelled-price patterns: scan starting positions
left to right. -/
def searchAmount (label : List Char) : List Char → Option (List Char)
  | [] => none
  | c :: rest => (tryAmount label (c :: rest)).orElse fun _ =>
      searchAmount label rest

def rentLit : List Char := (r"rent").toList
def buyLit : List Char := (r"buy").toList

/-- The price-extraction part of `_extract_prices_and_format`
(lines 479-496): labelled rent/buy prices first, then the fallback that
fills missing prices from the first and second entries of the `findall`
result.  The format-detection tail of the source function (lines
498-505) is independent of the prices and is not referenced by any
claim, so it is not modelled. -/
def extract_prices (snippet : List Char) : List Char × List Char :=
  if snippet.isEmpty then ([], [])
  else
    let rent_price := (searchAmount rentLit snippet).getD []
    let buy_price := (searchAmount buyLit snippet).getD []
    let all_prices := findallDollar snippet
    let rent_price :=
      if rent_price.isEmpty ∧ 1 ≤ all_prices.length then all_prices.getD 0 []
      else rent_price
    let buy_price :=
      if buy_price.isEmpty ∧ 2 ≤ all_prices.length then all_prices.getD 1 []
      else buy_price
    (rent_price, buy_price)

/-! ## Concrete fixtures used to instantiate the theorems below -/

/-- A record with both fields of `recB`, in the opposite insertion
order. -/
def recA : Record :=
  [((r"a").toList, (r"1").toList), ((r"b").toList, (r"2").toList)]

/-- A record equal to `recA` as a key-value map, built in the opposite
field insertion order. -/
def recB : Record :=
  [((r"b").toList, (r"2").toList), ((r"a").toList, (r"1").toList)]

/-- A one-field record with the given title value. -/
def mkRec (v : List Char) : Record := [((r"t").toList, v)]

/-- Empty index store. -/
def emptyIdx : Indexes := ⟨[], [], [], [], []⟩

/-- Six distinct records filed under year key `"2000"`. -/
def idxSix : Indexes :=
  ⟨[], [], [], [],
   [((r"2000").toList,
     [mkRec ((r"1").toList), mkRec ((r"2").toList), mkRec ((r"3").toList),
      mkRec ((r"4").toList), mkRec ((r"5").toList), mkRec ((r"6").toList)])]⟩

/-- Actor index holding `"x"`. -/
def idxA : Indexes := ⟨[((r"x").toList, [recA])], [], [], [], []⟩

/-- Year index with one key above 2015, one below, one unparsable. -/
def idxY : Indexes :=
  ⟨[], [], [], [],
   [((r"2016").toList, [recA]), ((r"2010").toList, [recB]),
    ((r"unknown").toList, [mkRec ((r"9").toList)])]⟩

/-- Candidate records and a parsed recommendation used to instantiate
the reconciliation theorems. -/
def metasW : List Record := [[(titleK, (r"inception").toList)]]

def recW : JVal := .jobj [(titleK, .jstr ((r"Inception (2010)").toList))]

/-- A semantic oracle with no hits. -/
def semNone : List Char → List Record := fun _ => []

/-- A semantic oracle returning the same two records for every clause. -/
def semW : List Char → List Record := fun _ => [recA, recB]

/-- The nine metadata projections of an enriched row, in source order. -/
def metaFieldsOf (e : Enriched) : List (List Char) :=
  [e.release_date, e.director, e.actors, e.rating, e.genres, e.overview,
   e.runtime, e.popularity, e.production_companies]

/-- The nine metadata fields of a candidate record, in source order. -/
def recordFieldsOf (m : Record) : List (List Char) :=
  [metaGet m ((r"release_date").toList), metaGet m ((r"director").toList),
   metaGet m ((r"actors").toList), metaGet m ((r"rating").toList),
   metaGet m ((r"genres").toList), metaGet m ((r"overview").toList),
   metaGet m ((r"runtime").toList), metaGet m ((r"popularity").toList),
   metaGet m ((r"production_companies").toList)]

/-! ## Helper lemmas about the set model -/

theorem mem_map_serialize_dedupGo {seen : List (List Char)} {l : List Record}
    {s : List Char} :
    s ∈ (dedupGo seen l).map serialize ↔ s ∈ l.map serialize ∧ ¬ s ∈ seen := by
  induction l generalizing seen with
  | nil => simp [dedupGo]
  | cons a tl ih =>
    by_cases hc : serialize a ∈ seen
    · rw [dedupGo, if_pos (by simpa using hc), ih]
      simp only [List.map_cons, List.mem_cons]
      constructor
      · rintro ⟨h1, h2⟩
        exact ⟨Or.inr h1, h2⟩
      · rintro ⟨h1 | h1, h2⟩
        · exact absurd (by rw [h1]; exact hc) h2
        · exact ⟨h1, h2⟩
    · rw [dedupGo, if_neg (by simpa using hc)]
      simp only [List.map_cons, List.mem_cons, ih]
      constructor
      · rintro (rfl | ⟨h1, h2⟩)
        · exact ⟨Or.inl rfl, hc⟩
        · exact ⟨Or.inr h1, fun hs => h2 (Or.inr hs)⟩
      · rintro ⟨rfl | h1, h2⟩
        · exact Or.inl rfl
        · by_cases hsa : s = serialize a
          · exact Or.inl hsa
          · exact Or.inr ⟨h1, fun hs => hs.elim hsa h2⟩

theorem mem_map_serialize_dedupBySer {l : List Record} {s : List Char} :
    s ∈ (dedupBySer l).map serialize ↔ s ∈ l.map serialize := by
  rw [dedupBySer, mem_map_serialize_dedupGo]
  simp

theorem mem_of_mem_dedupGo {seen : List (List Char)} {l : List Record} {r : Record}
    (h : r ∈ dedupGo seen l) : r ∈ l := by
  induction l generalizing seen with
  | nil => simpa [dedupGo] using h
  | cons a tl ih =>
    cases hc : seen.contains (serialize a) with
    | true =>
      rw [dedupGo, if_pos (by simpa using hc)] at h
      exact List.mem_cons_of_mem _ (ih h)
    | false =>
      rw [dedupGo, if_neg (by simpa using hc)] at h
      rcases List.mem_cons.mp h with rfl | h
      · exact List.mem_cons_self _ _
      · exact List.mem_cons_of_mem _ (ih h)

theorem nodup_map_serialize_dedupGo {seen : List (List Char)} {l : List Record} :
    ((dedupGo seen l).map serialize).Nodup := by
  induction l generalizing seen with
  | nil => simp [dedupGo]
  | cons a tl ih =>
    cases hc : seen.contains (serialize a) with
    | true => rw [dedupGo, if_pos (by simpa using hc)]; exact ih
    | false =>
      rw [dedupGo, if_neg (by simpa using hc)]
      refine List.Nodup.cons ?_ ih
      intro hmem
      exact (mem_map_serialize_dedupGo.mp hmem).2 (List.mem_cons_self _ _)

theorem mem_interAll {t : List Record} {rest : List (List Record)} {r : Record} :
    r ∈ interAll (t :: rest) ↔
      r ∈ t ∧ ∀ u ∈ rest, ∃ n ∈ u, serialize n = serialize r := by
  simp [interAll, List.mem_filter, List.all_eq_true, List.any_eq_true]

theorem interAll_serialize_mem {sets : List (List Record)} (h : ¬ sets = [])
    {s : List Char} :
    s ∈ (interAll sets).map serialize ↔ ∀ u ∈ sets, s ∈ u.map serialize := by
  cases sets with
  | nil => exact absurd rfl h
  | cons t rest =>
    simp only [List.mem_map]
    constructor
    · rintro ⟨r, hr, rfl⟩
      rw [mem_interAll] at hr
      intro u hu
      rcases List.mem_cons.mp hu with rfl | hu
      · exact ⟨r, hr.1, rfl⟩
      · obtain ⟨n, hn, hns⟩ := hr.2 u hu
        exact ⟨n, hn, hns⟩
    · intro hall
      obtain ⟨r, hrt, rfl⟩ := hall t (List.mem_cons_self _ _)
      refine ⟨r, ?_, rfl⟩
      rw [mem_interAll]
      refine ⟨hrt, fun u hu => ?_⟩
      obtain ⟨n, hn, hns⟩ := hall u (List.mem_cons_of_mem _ hu)
      exact ⟨n, hn, hns⟩

theorem ite_isEmpty_self {α : Type} (l : List α) :
    (if l.isEmpty then ([] : List α) else l) = l := by
  cases l <;> simp

/-! ## Helper lemmas about the clause-processing loop -/

theorem collect_eq_some {idx : Indexes} {sem : List Char → List Record}
    {cl : List (List Char)}
    (h : ∀ c ∈ cl, (is_clause_structured c = true → ¬ filter_clause idx c = []) ∧
      (is_clause_structured c = false → ¬ sem c = [])) :
    collect idx sem cl = some
      (((cl.filter fun c => !is_clause_structured c).map fun c => dedupBySer (sem c)),
       ((cl.filter fun c => is_clause_structured c).map
          fun c => dedupBySer (filter_clause idx c))) := by
  induction cl with
  | nil => simp [collect]
  | cons c tl ih =>
    have hc := h c (List.mem_cons_self _ _)
    have htl := ih fun x hx => h x (List.mem_cons_of_mem _ hx)
    cases hs : is_clause_structured c with
    | true =>
      have hne : (filter_clause idx c).isEmpty = false := by
        simpa [List.isEmpty_iff] using hc.1 hs
      simp [collect, hs, hne, htl, List.filter_cons]
    | false =>
      have hne : (sem c).isEmpty = false := by
        simpa [List.isEmpty_iff] using hc.2 hs
      simp [collect, hs, hne, htl, List.filter_cons]

theorem collect_eq_none {idx : Indexes} {sem : List Char → List Record}
    {cl : List (List Char)} {c : List Char} (hc : c ∈ cl)
    (hs : is_clause_structured c = true) (he : filter_clause idx c = []) :
    collect idx sem cl = none := by
  induction cl with
  | nil => cases hc
  | cons a tl ih =>
    rcases List.mem_cons.mp hc with rfl | hmem
    · simp [collect, hs, he]
    · cases hsa : is_clause_structured a with
      | true =>
        cases hae : (filter_clause idx a).isEmpty <;>
          simp [collect, hsa, hae, ih hmem]
      | false =>
        cases hae : (sem a).isEmpty <;>
          simp [collect, hsa, hae, ih hmem]

/-! ## Claim theorems -/

/-- C1: for every query with at least one semantic clause, in which every
structured clause matched at least one index record and every semantic
clause returned at least one vector hit, `search` returns exactly the
intersection of the semantic clause result sets (membership keyed by the
record serialization); the structured clause result sets do not appear in
the characterization of the returned records. -/
theorem c1_semantic_only_intersection (idx : Indexes)
    (sem : List Char → List Record) (query : List Char) (n_results : Nat)
    (hsem : ∃ c ∈ clausesOf query, is_clause_structured c = false)
    (hstr : ∀ c ∈ clausesOf query,
      is_clause_structured c = true → ¬ filter_clause idx c = [])
    (hvec : ∀ c ∈ clausesOf query,
      is_clause_structured c = false → ¬ sem c = []) :
    ∀ s : List Char, s ∈ (search idx sem query n_results).map serialize ↔
      ∀ c ∈ clausesOf query,
        is_clause_structured c = false → s ∈ (sem c).map serialize := by
  intro s
  obtain ⟨c0, hc0, hs0⟩ := hsem
  have hclne : (clausesOf query).isEmpty = false := by
    cases h : clausesOf query
    · rw [h] at hc0; cases hc0
    · simp [h]
  have hcoll := @collect_eq_some idx sem (clausesOf query)
    fun x hx => ⟨hstr x hx, hvec x hx⟩
  have hsemne : (((clausesOf query).filter fun c => !is_clause_structured c).map
      fun c => dedupBySer (sem c)) ≠ [] := by
    have : c0 ∈ (clausesOf query).filter fun c => !is_clause_structured c :=
      List.mem_filter.mpr ⟨hc0, by simp [hs0]⟩
    exact List.ne_nil_of_mem (List.mem_map_of_mem _ this)
  have hfb : (((clausesOf query).filter fun c => !is_clause_structured c).map
      fun c => dedupBySer (sem c)).isEmpty = false := by
    cases h : ((clausesOf query).filter fun c => !is_clause_structured c).map
        fun c => dedupBySer (sem c)
    · exact absurd h hsemne
    · simp
  simp only [search, hclne, Bool.false_eq_true, if_false, hcoll, hfb,
    ite_isEmpty_self]
  rw [interAll_serialize_mem hsemne]
  constructor
  · intro h c hc hcs
    have := h (dedupBySer (sem c))
      (List.mem_map_of_mem _ (List.mem_filter.mpr ⟨hc, by simp [hcs]⟩))
    exact mem_map_serialize_dedupBySer.mp this
  · intro h u hu
    obtain ⟨c, hcf, rfl⟩ := List.mem_map.mp hu
    obtain ⟨hc, hcs⟩ := List.mem_filter.mp hcf
    exact mem_map_serialize_dedupBySer.mpr (h c hc (by simpa using hcs))

theorem c1_witness :
    serialize recA ∈
      (search idxA semW ((r"starring x and dragons").toList) 5).map serialize :=
  ((c1_semantic_only_intersection idxA semW ((r"starring x and dragons").toList) 5
    (by decide) (by decide) (by decide)) (serialize recA)).mpr (by decide)

/-- C2: any clause that classifies as structured and resolves to an empty
match list makes `search` return the empty result, regardless of what the
other clauses (and in particular the semantic oracle) would produce. -/
theorem c2_structured_abort (idx : Indexes) (sem : List Char → List Record)
    (query : List Char) (n_results : Nat)
    (h : ∃ c ∈ clausesOf query,
      is_clause_structured c = true ∧ filter_clause idx c = []) :
    search idx sem query n_results = [] := by
  obtain ⟨c, hc, hs, he⟩ := h
  have hclne : (clausesOf query).isEmpty = false := by
    cases hq : clausesOf query
    · rw [hq] at hc; cases hc
    · simp [hq]
  simp only [search, hclne, Bool.false_eq_true, if_false,
    collect_eq_none hc hs he]

theorem c2_witness : search emptyIdx semW ((r"in 2000 and dragons").toList) 5 = [] :=
  c2_structured_abort emptyIdx semW ((r"in 2000 and dragons").toList) 5
    ⟨(r"in 2000").toList, by decide, by decide, by decide⟩

/-- C3 counterexample: a structured-only query whose intersection holds
six records makes `search` return all six, exceeding the default cap of
five — `search` never truncates its return value. -/
theorem c3_counterexample :
    ¬ (search idxSix semNone ((r"in 2000").toList) 5).length ≤ 5 := by
  decide

/-- C3 (amended): `search` returns the full intersection untruncated and
its `n_results` parameter does not affect the returned list at all; the
orchestrator is what truncates, to the hardcoded constant 5 (not to the
caller-supplied `n_results`), and that truncation takes a prefix of the
completed search result, i.e. it happens after the full intersection has
been computed. -/
theorem c3_amended (idx : Indexes) (sem : List Char → List Record)
    (query : List Char) (n n' : Nat) :
    (runCandidates idx sem query n).length ≤ 5 ∧
    (∃ t, runCandidates idx sem query n ++ t = search idx sem query n) ∧
    search idx sem query n = search idx sem query n' := by
  refine ⟨?_, ⟨(search idx sem query n).drop 5, List.take_append_drop 5 _⟩, rfl⟩
  simpa [runCandidates] using List.length_take_le 5 (search idx sem query n)

/-- C6 counterexample: two records that are equal as key-value maps
(a permutation of the same field list) but built in different insertion
orders serialize differently, and the intersection treats them as
distinct elements — the membership key is not order-independent. -/
theorem c6_counterexample :
    recA.Perm recB ∧ ¬ serialize recA = serialize recB ∧
      interAll [[recA], [recB]] = [] := by
  refine ⟨?_, by decide, by decide⟩
  exact List.Perm.swap _ _ _

/-- C6 (amended): the membership key for clause-result intersection is the
record's JSON serialization in field insertion order: the intersection
keeps exactly the first set's records whose serialization occurs in every
other set, and each clause set is de-duplicated by that serialization
(distinct serializations, first occurrence kept).  Records equal as maps
but with different insertion orders have different keys (see the
counterexample). -/
theorem c6_amended :
    (∀ (t : List Record) (rest : List (List Record)) (r : Record),
      r ∈ interAll (t :: rest) ↔
        r ∈ t ∧ ∀ u ∈ rest, ∃ n ∈ u, serialize n = serialize r) ∧
    (∀ (l : List Record) (s : List Char),
      s ∈ (dedupBySer l).map serialize ↔ s ∈ l.map serialize) ∧
    (∀ l : List Record, ((dedupBySer l).map serialize).Nodup) :=
  ⟨fun _ _ _ => mem_interAll, fun _ _ => mem_map_serialize_dedupBySer,
   fun _ => nodup_map_serialize_dedupGo⟩

theorem c6_amended_witness : recA ∈ interAll [[recA], [recA]] :=
  (c6_amended.1 [recA] [[recA]] recA).mpr (by decide)

/-- C10: when `search` yields no candidates, `MovieOrchestrator.run`
returns the empty result for every possible recommender — the external
recommendation service is never consulted. -/
theorem c10_skip_recommender {α : Type} (idx : Indexes)
    (sem : List Char → List Record) (recommender : List Char → List Record → α)
    (query : List Char) (n_results : Nat)
    (h : search idx sem query n_results = []) :
    run idx sem recommender query n_results = none := by
  simp [run, runCandidates, h]

theorem c10_witness : run emptyIdx semNone (fun _ _ => (0 : Nat)) [] 5 = none :=
  c10_skip_recommender emptyIdx semNone (fun _ _ => (0 : Nat)) [] 5 (by decide)

/-! ## Helper lemmas about the regex scan and the year filter -/

theorem scanFor_isSome_of_suffix {α : Type} {step : List Char → Option α}
    {s t : List Char} (hsuf : t <:+ s) (h : (step t).isSome = true)
    (hnil : step [] = none) : (scanFor step s).isSome = true := by
  induction s with
  | nil =>
    rw [List.suffix_nil.mp hsuf, hnil] at h
    cases h
  | cons a rest ih =>
    rcases List.suffix_cons_iff.mp hsuf with rfl | hsuf'
    · obtain ⟨v, hv⟩ := Option.isSome_iff_exists.mp h
      simp [scanFor, hv]
    · cases hstep : step (a :: rest) with
      | some v => simp [scanFor, hstep]
      | none => simpa [scanFor, hstep, Option.orElse] using ih hsuf'

theorem mem_yearFilter {yi : List (List Char × List Record)} {rel : List Char}
    {y : Int} {r : Record} :
    r ∈ yearFilter yi rel y ↔ ∃ p ∈ yi, r ∈ p.2 ∧
      ((pyInt? p.1).any fun n => (rel == afterLit && decide (y < n))
        || (rel == beforeLit && decide (n < y))
        || (rel == inLit && decide (n = y))) = true := by
  simp only [yearFilter, List.mem_flatMap, List.mem_filter]
  constructor
  · rintro ⟨p, ⟨hp, hpred⟩, hr⟩
    refine ⟨p, hp, hr, ?_⟩
    cases hpi : pyInt? p.1 with
    | none => simp [hpi] at hpred
    | some n =>
      rw [hpi] at hpred
      simpa [Option.any] using hpred
  · rintro ⟨p, hp, hr, hany⟩
    refine ⟨p, ⟨hp, ?_⟩, hr⟩
    cases hpi : pyInt? p.1 with
    | none => simp [hpi, Option.any] at hany
    | some n =>
      rw [hpi] at hany
      simp [hpi]
      simpa [Option.any] using hany

/-- C4: a clause whose normalized text matches none of the first four
patterns and matches the year pattern with relation `rel` and digits `ds`
resolves, for relation `after`, to exactly the records stored under year
keys whose integer value is strictly greater than the year; for `before`
strictly less; for `in` exactly equal — and index keys that fail integer
parsing contribute nothing (they are skipped without error). -/
theorem c4_year_relation (idx : Indexes) (c rel ds : List Char)
    (ha : reSearch actorAlts grabDot (pyStrip (pyLowerL c)) = none)
    (hd : reSearch directorAlts grabDot (pyStrip (pyLowerL c)) = none)
    (hco : reSearch companyAlts grabDot (pyStrip (pyLowerL c)) = none)
    (hg : reSearch genreAlts grabDot (pyStrip (pyLowerL c)) = none)
    (hy : reSearch yearAlts grabYear (pyStrip (pyLowerL c)) = some (rel, ds)) :
    (rel = afterLit → ∀ r, r ∈ filter_clause idx c ↔
      ∃ p ∈ idx.year, r ∈ p.2 ∧
        ((pyInt? p.1).any fun n => decide ((digitsToNat ds : Int) < n)) = true) ∧
    (rel = beforeLit → ∀ r, r ∈ filter_clause idx c ↔
      ∃ p ∈ idx.year, r ∈ p.2 ∧
        ((pyInt? p.1).any fun n => decide (n < (digitsToNat ds : Int))) = true) ∧
    (rel = inLit → ∀ r, r ∈ filter_clause idx c ↔
      ∃ p ∈ idx.year, r ∈ p.2 ∧
        ((pyInt? p.1).any fun n => decide (n = (digitsToNat ds : Int))) = true) := by
  have hfc : filter_clause idx c =
      yearFilter idx.year rel (digitsToNat ds : Int) := by
    simp [filter_clause, ha, hd, hco, hg, hy]
  refine ⟨?_, ?_, ?_⟩ <;> rintro rfl r <;> rw [hfc, mem_yearFilter] <;>
    refine exists_congr fun p => and_congr_right fun _ =>
      and_congr_right fun _ => ?_
  · cases hpi : pyInt? p.1 with
    | none => simp [hpi]
    | some n =>
      simp [hpi, Option.any, show ¬ afterLit = beforeLit by decide,
        show ¬ afterLit = inLit by decide]
  · cases hpi : pyInt? p.1 with
    | none => simp [hpi]
    | some n =>
      simp [hpi, Option.any, show ¬ beforeLit = afterLit by decide,
        show ¬ beforeLit = inLit by decide]
  · cases hpi : pyInt? p.1 with
    | none => simp [hpi]
    | some n =>
      simp [hpi, Option.any, show ¬ inLit = afterLit by decide,
        show ¬ inLit = beforeLit by decide]

theorem c4_witness :
    recA ∈ filter_clause idxY ((r"after 2015").toList) ∧
      ¬ recB ∈ filter_clause idxY ((r"after 2015").toList) :=
  ⟨((c4_year_relation idxY ((r"after 2015").toList) afterLit ((r"2015").toList)
      (by decide) (by decide) (by decide) (by decide) (by decide)).1 rfl
      recA).mpr (by decide),
   fun hmem =>
    absurd (((c4_year_relation idxY ((r"after 2015").toList) afterLit
      ((r"2015").toList) (by decide) (by decide) (by decide) (by decide)
      (by decide)).1 rfl recB).mp hmem) (by decide)⟩

/-- C9: clause classification is unanchored substring matching — whenever
the year pattern matches at any suffix of the normalized clause text, the
clause is classified structured; in particular `"berlin 1989"` is
classified structured (via the `in 1989` inside it) even though no
trigger phrase occurs at the start of the clause. -/
theorem c9_unanchored_classification :
    (∀ s t : List Char, t <:+ pyStrip (pyLowerL s) →
      (stepAlts yearAlts grabYear t).isSome = true →
      is_clause_structured s = true) ∧
    is_clause_structured ((r"berlin 1989").toList) = true ∧
    ((actorAlts ++ directorAlts ++ companyAlts ++ genreAlts ++ yearAlts).all
      fun a => !litAt a ((r"berlin 1989").toList)) = true := by
  refine ⟨?_, by decide, by decide⟩
  intro s t hsuf hsome
  have hy : (scanFor (stepAlts yearAlts grabYear)
      (pyStrip (pyLowerL s))).isSome = true :=
    scanFor_isSome_of_suffix hsuf hsome (by decide)
  simp [is_clause_structured, reSearch, hy]

theorem c9_witness : is_clause_structured ((r"xy in 2015").toList) = true :=
  c9_unanchored_classification.1 ((r"xy in 2015").toList) ((r"in 2015").toList)
    ⟨(r"xy ").toList, by decide⟩ (by decide)

/-! ## Helper lemmas about stripping and fence cleaning -/

theorem litAt_self_append (p t : List Char) : litAt p (p ++ t) = true := by
  induction p with
  | nil => rfl
  | cons a ps ih => simp [litAt, ih]

theorem lstrip_cons_nonspace {c : Char} {t : List Char}
    (h : pyIsSpace c = false) : lstrip (c :: t) = c :: t := by
  simp [lstrip, List.dropWhile_cons, h]

theorem rstrip_last_nonspace {x : List Char} {c : Char}
    (h : pyIsSpace c = false) : rstrip (x ++ [c]) = x ++ [c] := by
  rw [rstrip, List.reverse_append]
  simp [List.dropWhile_cons, h]

theorem fenceClose_eq : fenceClose = ['\x60', '\x60', '\x60'] := rfl

theorem fenceOpen_eq :
    fenceOpen = '\x60' :: ['\x60', '\x60', 'j', 's', 'o', 'n'] := rfl

theorem rstrip_append_fence (x : List Char) :
    rstrip (x ++ fenceClose) = x ++ fenceClose := by
  have h : x ++ fenceClose = (x ++ ['\x60', '\x60']) ++ ['\x60'] := by
    rw [fenceClose_eq]; simp
  rw [h, rstrip_last_nonspace (by decide)]

theorem lstrip_idem (s : List Char) : lstrip (lstrip s) = lstrip s := by
  induction s with
  | nil => rfl
  | cons a t ih =>
    cases h : pyIsSpace a with
    | true =>
      have he : lstrip (a :: t) = lstrip t := by
        simp [lstrip, List.dropWhile_cons, h]
      rw [he]; exact ih
    | false =>
      have he : lstrip (a :: t) = a :: t := lstrip_cons_nonspace h
      rw [he]; exact he

theorem pyStrip_lstrip (s : List Char) : pyStrip (lstrip s) = pyStrip s := by
  rw [pyStrip, pyStrip, lstrip_idem]

theorem pyStrip_append_fence (s : List Char) :
    pyStrip (s ++ fenceClose) = lstrip s ++ fenceClose := by
  rw [pyStrip, lstrip, List.dropWhile_append]
  cases hs : (s.dropWhile pyIsSpace).isEmpty with
  | true =>
    have hnil : s.dropWhile pyIsSpace = [] := by
      cases hd : s.dropWhile pyIsSpace
      · rfl
      · rw [hd] at hs; cases hs
    rw [if_pos rfl]
    have hfc : fenceClose.dropWhile pyIsSpace = fenceClose := by decide
    rw [hfc, lstrip, hnil]
    simpa using rstrip_append_fence []
  | false =>
    rw [if_neg Bool.false_ne_true]
    exact rstrip_append_fence _

theorem endsWith_append_fence (x : List Char) :
    endsWithL fenceClose (x ++ fenceClose) = true := by
  rw [endsWithL, List.reverse_append]
  exact litAt_self_append _ _

theorem take_append_fence (x : List Char) :
    (x ++ fenceClose).take ((x ++ fenceClose).length - 3) = x := by
  have hl : (x ++ fenceClose).length - 3 = x.length := by
    simp [fenceClose_eq]
  rw [hl, List.take_left]

theorem pyClean_plain {s : List Char}
    (h1 : litAt fenceOpen (pyStrip s) = false)
    (h2 : endsWithL fenceClose (pyStrip s) = false) :
    pyClean s = pyStrip s := by
  simp [pyClean, h1, h2]

theorem pyClean_wrapped (s : List Char) :
    pyClean (fenceOpen ++ (s ++ fenceClose)) = pyStrip s := by
  have h0 : pyStrip (fenceOpen ++ (s ++ fenceClose)) =
      fenceOpen ++ (s ++ fenceClose) := by
    rw [pyStrip]
    rw [show fenceOpen ++ (s ++ fenceClose) =
      '\x60' :: (['\x60', '\x60', 'j', 's', 'o', 'n'] ++ (s ++ fenceClose))
      from by rw [fenceOpen_eq]; simp]
    rw [lstrip_cons_nonspace (by decide)]
    rw [show '\x60' :: (['\x60', '\x60', 'j', 's', 'o', 'n'] ++ (s ++ fenceClose)) =
      ('\x60' :: (['\x60', '\x60', 'j', 's', 'o', 'n'] ++ s)) ++ fenceClose
      from by simp]
    rw [rstrip_append_fence]
  have h1 : litAt fenceOpen (fenceOpen ++ (s ++ fenceClose)) = true :=
    litAt_self_append _ _
  have h2 : (fenceOpen ++ (s ++ fenceClose)).drop 7 = s ++ fenceClose := by
    rw [show (7 : Nat) = fenceOpen.length from rfl]
    exact List.drop_left _ _
  have h3 := pyStrip_append_fence s
  have h4 := endsWith_append_fence (lstrip s)
  have h5 := take_append_fence (lstrip s)
  simp only [pyClean, h0, h1, if_true, h2, h3, h4, h5, pyStrip_lstrip]

/-- The position of the first match of a predicate: `find?` returning
`some a` splits the list into unmatched elements, the hit, and a tail. -/
theorem find?_eq_some_split {α : Type} {p : α → Bool} {l : List α} {a : α}
    (h : l.find? p = some a) :
    p a = true ∧ ∃ l₁ l₂, l = l₁ ++ a :: l₂ ∧ ∀ x ∈ l₁, p x = false := by
  induction l with
  | nil => cases h
  | cons b tl ih =>
    cases hb : p b with
    | true =>
      rw [List.find?_cons_of_pos _ hb] at h
      cases h
      exact ⟨hb, [], tl, rfl, by simp⟩
    | false =>
      rw [List.find?_cons_of_neg _ (by simp [hb])] at h
      obtain ⟨hpa, l₁, l₂, rfl, hall⟩ := ih h
      refine ⟨hpa, b :: l₁, l₂, rfl, ?_⟩
      intro x hx
      rcases List.mem_cons.mp hx with rfl | hx
      · exact hb
      · exact hall x hx

/-- C5: reconciliation produces one enriched row per recommendation dict;
each row keeps the candidate's (stripped) title and reason; its metadata
fields are copied from the first record, in candidate-list order, whose
normalized title is a case-insensitive substring of the candidate's
normalized title; and when no record matches, every metadata field is the
empty string — no error is possible. -/
theorem c5_reconciliation (metas : List Record) :
    (∀ recs : List JVal, (∀ v ∈ recs, (asDict v).isSome = true) →
      ((recs.filterMap asDict).map (enrichOne metas)).length = recs.length) ∧
    (∀ rec, (enrichOne metas rec).title = pyStrip (pyStrOf (recGet rec titleK)) ∧
      (enrichOne metas rec).reason = pyStrip (pyStrOf (recGet rec reasonK))) ∧
    (∀ rec,
      (∃ l₁ m l₂, metas = l₁ ++ m :: l₂ ∧
        titleMatches (pyStrip (pyStrOf (recGet rec titleK))) m = true ∧
        (∀ x ∈ l₁,
          titleMatches (pyStrip (pyStrOf (recGet rec titleK))) x = false) ∧
        metaFieldsOf (enrichOne metas rec) = recordFieldsOf m) ∨
      ((∀ m ∈ metas,
          titleMatches (pyStrip (pyStrOf (recGet rec titleK))) m = false) ∧
        metaFieldsOf (enrichOne metas rec) = List.replicate 9 [])) := by
  refine ⟨?_, fun rec => ⟨rfl, rfl⟩, ?_⟩
  · intro recs h
    induction recs with
    | nil => simp
    | cons v tl ih =>
      obtain ⟨fs, hfs⟩ :=
        Option.isSome_iff_exists.mp (h v (List.mem_cons_self _ _))
      simp [List.filterMap_cons, hfs,
        ih fun x hx => h x (List.mem_cons_of_mem _ hx)]
  · intro rec
    cases hf : metas.find?
        (titleMatches (pyStrip (pyStrOf (recGet rec titleK)))) with
    | none =>
      refine Or.inr ⟨fun m hm => ?_, ?_⟩
      · simpa using List.find?_eq_none.mp hf m hm
      · simp [metaFieldsOf, enrichOne, hf, List.replicate]
    | some m =>
      obtain ⟨hpm, l₁, l₂, heq, hall⟩ := find?_eq_some_split hf
      exact Or.inl ⟨l₁, m, l₂, heq, hpm, hall, by
        simp [metaFieldsOf, recordFieldsOf, enrichOne, hf]⟩

theorem c5_witness :
    (([recW].filterMap asDict).map (enrichOne metasW)).length = [recW].length :=
  (c5_reconciliation metasW).1 [recW] (by decide)

/-- C7: parsing a re-ranker payload wrapped in leading/trailing code-fence
markers yields exactly the same enriched recommendations as parsing the
unwrapped text (for any JSON decoder and candidate set), and both the
object shape with a `recommendations` field and the bare-array shape are
accepted by the shape dispatch. -/
theorem c7_fence_and_shapes :
    (∀ (loads : List Char → Option JVal) (metas : List Record) (s : List Char),
      litAt fenceOpen (pyStrip s) = false →
      endsWithL fenceClose (pyStrip s) = false →
      parse_json_recommendations loads metas (fenceOpen ++ (s ++ fenceClose)) =
        parse_json_recommendations loads metas s) ∧
    (∀ l : List JVal, extractRecs (.jarr l) = some l) ∧
    (∀ (fs : List (List Char × JVal)) (l : List JVal),
      ((fs.find? fun p => p.1 == recommendationsK).map Prod.snd) =
        some (.jarr l) →
      extractRecs (.jobj fs) = some l) := by
  refine ⟨?_, fun l => rfl, ?_⟩
  · intro loads metas s h1 h2
    simp only [parse_json_recommendations, pyClean_wrapped,
      pyClean_plain h1 h2]
  · intro fs l h
    simp [extractRecs, h]

theorem c7_witness :
    parse_json_recommendations (fun _ => none) []
        (fenceOpen ++ (((r" [1] ").toList) ++ fenceClose)) =
      parse_json_recommendations (fun _ => none) [] ((r" [1] ").toList) :=
  c7_fence_and_shapes.1 (fun _ => none) [] ((r" [1] ").toList)
    (by decide) (by decide)

/-- C8 (code bug): on a snippet containing dollar amounts but no explicit
rent/buy label, the labelled searches find nothing and the fallback sets
both prices to entries of the `re.findall` result — which, because the
pattern `\$\d+(\.\d{1,2})?` has a capturing group, holds only the
captured decimal-fraction parts (`".99"`), not the full first and second
bare dollar amounts (`"$3.99"` / `"$12.99"`) the claim describes. -/
theorem c8_findall_group_bug :
    searchAmount rentLit
        ((r"Stream it from $3.99 or own from $12.99 today").toList) = none ∧
    searchAmount buyLit
        ((r"Stream it from $3.99 or own from $12.99 today").toList) = none ∧
    extract_prices ((r"Stream it from $3.99 or own from $12.99 today").toList) =
      ((r".99").toList, (r".99").toList) ∧
    ¬ extract_prices
        ((r"Stream it from $3.99 or own from $12.99 today").toList) =
      ((r"$3.99").toList, (r"$12.99").toList) :=
  ⟨by decide, by decide, by decide, by decide⟩

end MovieSearch
